import Mathlib

/-!
Verification of the imgproc-dh utilities (binarize-sauvola.cpp, isolate-bg.cpp,
mask-op.cpp) against their natural-language specification.

Machine doubles are modelled as real numbers and machine floats as rationals
(the specification states pixel data is "modeled as real-valued during
computation"); the `uint_least64_t` integral-image accumulators are modelled
as naturals, which is exact because the program rejects any image/window
combination whose padded pixel count exceeds `INT_MAX`, so every accumulated
value stays below `2^47 < 2^64` and unsigned wrap-around never occurs.
-/

namespace ImgprocDH

/-- A single-channel image: pixel value at (row, column).  Dimensions are
tracked separately; pixels read out of bounds never influence the theorems,
which quantify over in-bounds coordinates only. -/
def Image : Type := ℕ → ℕ → ℕ

/-- Leading-edge padding width, from `int win_n = wsize / 2; if ((wsize % 2) != 0) ++win_n;`. -/
def win_n (wsize : ℕ) : ℕ := if wsize % 2 ≠ 0 then wsize / 2 + 1 else wsize / 2

/-- Trailing-edge padding width, from `int win_p = wsize / 2;`. -/
def win_p (wsize : ℕ) : ℕ := wsize / 2

/-- `copyMakeBorder(img, padimg, win_n, win_p, win_n, win_p, BORDER_REPLICATE)`:
replicated-border extension by `win_n` rows/columns on the top/left edge and
`win_p` on the bottom/right edge.  Padded coordinate `y` maps back to source
row `y - win_n` clamped into `[0, h-1]` (truncated natural subtraction clamps
the low side, `min (h-1)` the high side), which is exactly border replication. -/
def padimg (img : Image) (h w wsize : ℕ) : Image :=
  fun y x => img (min (h - 1) (y - win_n wsize)) (min (w - 1) (x - win_n wsize))

/-- Row accumulator of the integral-image construction: the value of `accum`
after adding columns `0..x` of row `y` (`accum += value` left to right). -/
def rowAccum (f : ℕ → ℕ → ℕ) (y : ℕ) : ℕ → ℕ
  | 0 => f y 0
  | x + 1 => rowAccum f y x + f y (x + 1)

/-- Integral buffer recurrence: row 0 stores the row accumulators directly;
row `y+1` stores `accum + buffer[pw * y + x]` (the cell one row above). -/
def buffer (f : ℕ → ℕ → ℕ) : ℕ → ℕ → ℕ
  | 0, x => rowAccum f 0 x
  | y + 1, x => rowAccum f (y + 1) x + buffer f y x

/-- Four-corner inclusion-exclusion query
`buffer[Y1 + (x+wsize)] - buffer[Y1 + x] + buffer[Y0 + x] - buffer[Y0 + (x+wsize)]`
with the operations associated exactly as in the source (left to right on the
unsigned accumulator type; natural subtraction is exact here, see
`fourCornerTotal_eq_blockSum`). -/
def fourCornerTotal (f : ℕ → ℕ → ℕ) (wsize y x : ℕ) : ℕ :=
  buffer f (y + wsize) (x + wsize) - buffer f (y + wsize) x + buffer f y x -
    buffer f y (x + wsize)

/-- Direct double sum over the `wsize × wsize` block of samples that the
four-corner query is meant to cover (padded rows `y+1 .. y+wsize`, padded
columns `x+1 .. x+wsize`). -/
def blockSum (f : ℕ → ℕ → ℕ) (wsize y x : ℕ) : ℕ :=
  ∑ i ∈ Finset.range wsize, ∑ j ∈ Finset.range wsize, f (y + 1 + i) (x + 1 + j)

/-- Squared-sample image fed into the second integral buffer
(`accum2 += value * value`). -/
def sqPix (p : Image) : Image := fun y x => p y x * p y x

/-- `total1` of the fast Sauvola loop: four-corner query on the first
integral buffer built over the padded image. -/
def total1 (img : Image) (h w wsize y x : ℕ) : ℕ :=
  fourCornerTotal (padimg img h w wsize) wsize y x

/-- `total2` of the fast Sauvola loop: four-corner query on the second
integral buffer (sums of squares) built over the padded image. -/
def total2 (img : Image) (h w wsize y x : ℕ) : ℕ :=
  fourCornerTotal (sqPix (padimg img h w wsize)) wsize y x

/-- `double invsqWindow = 1.0 / wsize / wsize;`. -/
noncomputable def invsqWindow (wsize : ℕ) : ℝ := 1.0 / (wsize : ℝ) / (wsize : ℝ)

/-- `double mean = total1 * invsqWindow;`. -/
noncomputable def sauvolaMean (img : Image) (h w wsize y x : ℕ) : ℝ :=
  (total1 img h w wsize y x : ℝ) * invsqWindow wsize

/-- `double stddev = sqrt(total2 * invsqWindow - mean * mean);`
note the absence of any clamping of the radicand. -/
noncomputable def sauvolaStddev (img : Image) (h w wsize y x : ℕ) : ℝ :=
  Real.sqrt ((total2 img h w wsize y x : ℝ) * invsqWindow wsize -
    sauvolaMean img h w wsize y x * sauvolaMean img h w wsize y x)

/-- `double rParam = rScale * (255.0 * 0.5);`. -/
noncomputable def rParam (rScale : ℝ) : ℝ := rScale * (255.0 * 0.5)

/-- `double tRealBias = 255.0 * tBias;`. -/
noncomputable def tRealBias (tBias : ℝ) : ℝ := 255.0 * tBias

/-- C++ conversion of a `double` to `int`: truncation toward zero. -/
noncomputable def cppTruncToInt (t : ℝ) : ℤ := if 0 ≤ t then ⌊t⌋ else ⌈t⌉

/-- `int threshold = tScale * mean * (1 + kParam * (stddev / rParam - 1)) + tRealBias;`. -/
noncomputable def sauvolaThresholdInt (img : Image) (h w wsize : ℕ)
    (kParam rScale tScale tBias : ℝ) (y x : ℕ) : ℤ :=
  cppTruncToInt (tScale * sauvolaMean img h w wsize y x *
    (1 + kParam * (sauvolaStddev img h w wsize y x / rParam rScale - 1)) + tRealBias tBias)

/-- The centre sample `padimg.at<unsigned char>(y + win_n, x + win_n)`. -/
def centerPixel (img : Image) (h w wsize y x : ℕ) : ℕ :=
  padimg img h w wsize (y + win_n wsize) (x + win_n wsize)

/-- Binary-policy output
`dst = padimg.at(y + win_n, x + win_n) > threshold ? 255 : 0`
(the `unsigned char` sample is promoted to `int` for the comparison). -/
noncomputable def sauvolaBinary (img : Image) (h w wsize : ℕ)
    (kParam rScale tScale tBias : ℝ) (y x : ℕ) : ℕ :=
  if (centerPixel img h w wsize y x : ℤ) >
      sauvolaThresholdInt img h w wsize kParam rScale tScale tBias y x then 255 else 0

/-- ThresholdMap-policy output `dst.at<unsigned char>(y, x) = threshold;`:
the C++ `int`-to-`unsigned char` conversion reduces the value modulo 256. -/
noncomputable def sauvolaThresholdMap (img : Image) (h w wsize : ℕ)
    (kParam rScale tScale tBias : ℝ) (y x : ℕ) : ℕ :=
  ((sauvolaThresholdInt img h w wsize kParam rScale tScale tBias y x) % 256).toNat

/-- Variable-policy upper boundary: `th1 = tScale * mean;` then `th1 += tRealBias;`. -/
noncomputable def sauvolaTh1 (img : Image) (h w wsize : ℕ)
    (rScale tScale tBias : ℝ) (y x : ℕ) : ℝ :=
  tScale * sauvolaMean img h w wsize y x + tRealBias tBias

/-- Variable-policy lower boundary:
`th0 = th1 * (1 + (stddev / rParam - 1));` then `th0 += tRealBias;`. -/
noncomputable def sauvolaTh0 (img : Image) (h w wsize : ℕ)
    (rScale tScale tBias : ℝ) (y x : ℕ) : ℝ :=
  tScale * sauvolaMean img h w wsize y x *
    (1 + (sauvolaStddev img h w wsize y x / rParam rScale - 1)) + tRealBias tBias

/-! Specification-side window statistics, written directly as the arithmetic
mean and population standard deviation of the window block (no integral
images).  The claim theorems relate the program's outputs to these. -/

/-- Windowed arithmetic mean of the `wsize × wsize` block covering pixel `(y, x)`. -/
noncomputable def windowMean (img : Image) (h w wsize y x : ℕ) : ℝ :=
  (blockSum (padimg img h w wsize) wsize y x : ℝ) / ((wsize : ℝ) ^ 2)

/-- Windowed population variance of the block: mean of squares minus square of mean. -/
noncomputable def windowVariance (img : Image) (h w wsize y x : ℕ) : ℝ :=
  (blockSum (sqPix (padimg img h w wsize)) wsize y x : ℝ) / ((wsize : ℝ) ^ 2) -
    windowMean img h w wsize y x ^ 2

/-- Windowed population standard deviation of the block. -/
noncomputable def windowStddev (img : Image) (h w wsize y x : ℕ) : ℝ :=
  Real.sqrt (windowVariance img h w wsize y x)

/-- The Sauvola threshold exactly as the specification words it:
`tScale * mean * (1 + K * (stddev / R - 1)) + bias`, with the windowed mean and
population standard deviation taken directly from the block, `R = rScale * 127.5`
and the additive bias term `255 * tBias` as configured. -/
noncomputable def specThreshold (img : Image) (h w wsize : ℕ)
    (kParam rScale tScale tBias : ℝ) (y x : ℕ) : ℝ :=
  tScale * windowMean img h w wsize y x *
    (1 + kParam * (windowStddev img h w wsize y x / rParam rScale - 1)) + tRealBias tBias

/-- The 2×2 image with a black top row and a near-black bottom row used to
refute the unamended claim C1: its pixel (0,0) has centre intensity 0 and a
Sauvola threshold of −253/510 ∈ (−1, 0). -/
def ceImg : Image := fun y _ => if y = 0 then 0 else 1

/-- The 4×4 all-128 image of the specification scenario behind claim C2. -/
def img128 : Image := fun _ _ => 128

/-- A 1×1 all-250 image: with window 1, K = 0, tScale 1 and tBias 50/255 its
Sauvola threshold is 300, outside the 8-bit output range. -/
def img250 : Image := fun _ _ => 250

/-- An all-5 image.  On its 7×7 window the exact value of
`total2 * invsqWindow - mean * mean` is 0, but under IEEE doubles the same
expression evaluates to about −3.55·10⁻¹⁵ < 0, and the program passes it to
`sqrt` without any clamp. -/
def img5 : Image := fun _ _ => 5

/-! ### Embedding of mask-op.cpp

The per-pixel glue (negation, the `tmp <= dist ? 0 : 255` inset loop, the
command list built by `argparse`) is source code and is embedded directly.
`distanceTransform` and `floodFill` are OpenCV collaborators, so the
interpreter is parametrised over them; the claims settled here do not depend
on their values. -/

/-- The mask-op command opcodes (`ProgramOp`). -/
inductive MaskOp
  | neg
  | fillBorder
  | insetL2
  | insetL1
  deriving DecidableEq

/-- A parsed command (`ProgramCommand`): opcode plus distance argument
(zero-initialised for the argument-less commands). -/
structure MaskCommand where
  op : MaskOp
  dist : ℚ
  deriving DecidableEq

/-- The four inset/outset option letters `-i -I -o -O`. -/
inductive InsetOutsetOpt
  | optI
  | optIL1
  | optO
  | optOL1
  deriving DecidableEq

/-- The sign-flip table applied to a negative width argument:
`i↔o` and `I↔O`. -/
def flipOpt : InsetOutsetOpt → InsetOutsetOpt
  | .optI => .optO
  | .optIL1 => .optOL1
  | .optO => .optI
  | .optOL1 => .optIL1

/-- The `argparse` dispatch for one inset/outset option: a negative width is
sign-flipped into the complementary option, then `-i`/`-I` push a single inset
command while `-o`/`-O` push `neg; inset; neg`. -/
def dispatchInsetOutset (opt : InsetOutsetOpt) (width : ℚ) : List MaskCommand :=
  let realopt := if width < 0 then flipOpt opt else opt
  let w := if width < 0 then -width else width
  match realopt with
  | .optI => [⟨.insetL2, w⟩]
  | .optIL1 => [⟨.insetL1, w⟩]
  | .optO => [⟨.neg, 0⟩, ⟨.insetL2, w⟩, ⟨.neg, 0⟩]
  | .optOL1 => [⟨.neg, 0⟩, ⟨.insetL1, w⟩, ⟨.neg, 0⟩]

/-- Mask negation loop: `img = 255 - img` at every pixel. -/
def maskNeg (m : Image) : Image := fun y x => 255 - m y x

/-- The inset thresholding loop applied to a distance-transform result:
`img = (tmp <= dist) ? 0 : 255`. -/
def insetThreshold (distMap : ℕ → ℕ → ℚ) (dist : ℚ) : Image :=
  fun y x => if distMap y x ≤ dist then 0 else 255

/-- External OpenCV collaborators of mask-op: the two distance transforms
(`CV_DIST_L2` / `CV_DIST_L1`) and the border flood-fill pass. -/
structure MaskEnv where
  dtL2 : Image → ℕ → ℕ → ℚ
  dtL1 : Image → ℕ → ℕ → ℚ
  borderFill : Image → Image

/-- One iteration of the mask-op main command loop. -/
def runCommand (env : MaskEnv) (m : Image) (cmd : MaskCommand) : Image :=
  match cmd.op with
  | .neg => maskNeg m
  | .fillBorder => env.borderFill m
  | .insetL2 => insetThreshold (env.dtL2 m) cmd.dist
  | .insetL1 => insetThreshold (env.dtL1 m) cmd.dist

/-- The mask-op main loop: apply the parsed commands in order to the mask. -/
def runCommands (env : MaskEnv) (cmds : List MaskCommand) (m : Image) : Image :=
  cmds.foldl (runCommand env) m

/-! ### Embedding of isolate-bg.cpp (fast inpainting and pipeline output)

The single-channel (`else`) branches are embedded; the 3-channel branches are
the identical code applied to each channel independently.  `float` arithmetic
is modelled as rational arithmetic. -/

/-- Inpaint initialisation modes (`InpaintInitMode`). -/
inductive InpaintInitMode
  | mean
  | neighborL1
  deriving DecidableEq

/-- Number of unmasked pixels (`pixels` accumulated over `!mask.at(y, x)`). -/
def unmaskedCount (mask : Image) (h w : ℕ) : ℕ :=
  ((Finset.range h ×ˢ Finset.range w).filter (fun p => mask p.1 p.2 = 0)).card

/-- Sum of the source samples over the unmasked pixels (`totalR`). -/
def unmaskedSum (src mask : Image) (h w : ℕ) : ℕ :=
  ∑ p ∈ (Finset.range h ×ˢ Finset.range w).filter (fun p => mask p.1 p.2 = 0), src p.1 p.2

/-- MeanFill initialisation: every masked pixel of the clone receives
`totalR / pixels` (unsigned integer division); unmasked pixels keep their
source values. -/
def meanFill (src mask : Image) (h w : ℕ) : Image :=
  fun y x =>
    if mask y x ≠ 0 then unmaskedSum src mask h w / unmaskedCount mask h w else src y x

/-- Bounds test `X >= 0 && X < w && Y >= 0 && Y < h` on candidate donor
coordinates. -/
def inB (h w : ℕ) (p : ℤ × ℤ) : Bool :=
  decide (0 ≤ p.1) && decide (p.1 < (w : ℤ)) && decide (0 ≤ p.2) && decide (p.2 < (h : ℤ))

/-- The four candidate donors `(X, Y)` tried for offset `k` on ring `d`, in
the exact order of the unrolled quadrant logic of the source. -/
def ringPoints (x y d k : ℕ) : List (ℤ × ℤ) :=
  [((x : ℤ) + k, (y : ℤ) - d + k), ((x : ℤ) + d - k, (y : ℤ) + k),
    ((x : ℤ) - k, (y : ℤ) + d - k), ((x : ℤ) - d + k, (y : ℤ) - k)]

/-- Whether a candidate is an in-bounds unmasked donor. -/
def isDonor (mask : Image) (h w : ℕ) (p : ℤ × ℤ) : Bool :=
  inB h w p && decide (mask p.2.toNat p.1.toNat = 0)

/-- First donor found on ring `d` (`for (k = 0; k < d; ...)`, four candidates
per `k` in source order). -/
def findDonorInRing (mask : Image) (h w x y d : ℕ) : Option (ℤ × ℤ) :=
  ((List.range d).flatMap (ringPoints x y d)).find? (isDonor mask h w)

/-- Donor search over rings `d = 1, 2, ...` in increasing order.  The C++ loop
`for (d = 1; !ok; d++)` is unbounded; it is run here with explicit fuel, and
`h + w` rings always suffice when an unmasked pixel exists (the L1 distance
between two in-bounds pixels is below `h + w`). -/
def findDonorUpTo (mask : Image) (h w x y : ℕ) : ℕ → Option (ℤ × ℤ)
  | 0 => none
  | d + 1 =>
    match findDonorUpTo mask h w x y d with
    | some p => some p
    | none => findDonorInRing mask h w x y (d + 1)

/-- NearestUnmaskedL1Fill initialisation.  Each masked pixel copies the first
donor its ring search finds.  The source reads the donor from `dst`, but every
donor is unmasked and unmasked pixels of `dst` are never overwritten, so the
donor's value is its source value. -/
def neighborFill (src mask : Image) (h w : ℕ) : Image :=
  fun y x =>
    if mask y x ≠ 0 then
      match findDonorUpTo mask h w x y (h + w) with
      | some p => src p.2.toNat p.1.toNat
      | none => src y x
    else src y x

/-- Corner weight of the Oliveira diffusion kernel (`a = 0.073235f`). -/
def kernelA : ℚ := 0.073235

/-- Edge weight of the Oliveira diffusion kernel (`b = 0.176765f`). -/
def kernelB : ℚ := 0.176765

/-- Replicated-border sample fetch used by `filter2D(..., BORDER_REPLICATE)`. -/
def replicateAt (f : ℕ → ℕ → ℚ) (h w : ℕ) (Y X : ℤ) : ℚ :=
  f (min (h - 1) Y.toNat) (min (w - 1) X.toNat)

/-- One application of the fixed 3×3 kernel
`(a, b, a; b, 0, b; a, b, a)` at anchor `(1, 1)` under replicated borders. -/
def convolveAt (f : ℕ → ℕ → ℚ) (h w y x : ℕ) : ℚ :=
  kernelA * replicateAt f h w ((y : ℤ) - 1) ((x : ℤ) - 1) +
  kernelB * replicateAt f h w ((y : ℤ) - 1) (x : ℤ) +
  kernelA * replicateAt f h w ((y : ℤ) - 1) ((x : ℤ) + 1) +
  kernelB * replicateAt f h w (y : ℤ) ((x : ℤ) - 1) +
  0 * replicateAt f h w (y : ℤ) (x : ℤ) +
  kernelB * replicateAt f h w (y : ℤ) ((x : ℤ) + 1) +
  kernelA * replicateAt f h w ((y : ℤ) + 1) ((x : ℤ) - 1) +
  kernelB * replicateAt f h w ((y : ℤ) + 1) (x : ℤ) +
  kernelA * replicateAt f h w ((y : ℤ) + 1) ((x : ℤ) + 1)

/-- One diffusion iteration: convolve, then overwrite masked pixels only. -/
def diffuseStep (mask : Image) (h w : ℕ) (cur : ℕ → ℕ → ℚ) : ℕ → ℕ → ℚ :=
  fun y x => if mask y x ≠ 0 then convolveAt cur h w y x else cur y x

/-- `iterations` diffusion passes over the float image. -/
def diffuseIter (mask : Image) (h w : ℕ) (init : ℕ → ℕ → ℚ) : ℕ → (ℕ → ℕ → ℚ)
  | 0 => init
  | n + 1 => diffuseStep mask h w (diffuseIter mask h w init n)

/-- OpenCV `cvRound`: round half to even. -/
def cvRound (q : ℚ) : ℤ :=
  if q - ⌊q⌋ < 1 / 2 then ⌊q⌋
  else if 1 / 2 < q - ⌊q⌋ then ⌊q⌋ + 1
  else if Even ⌊q⌋ then ⌊q⌋ else ⌊q⌋ + 1

/-- `saturate_cast<uchar>` applied by `convertTo(..., CV_8U)`: round then
clamp into `[0, 255]`. -/
def saturateUchar (q : ℚ) : ℕ := (min (max (cvRound q) 0) 255).toNat

/-- The common tail of `fastInpaint`: convert the initialised image to float,
run the diffusion iterations, convert back to 8-bit. -/
def inpaintTail (mask : Image) (h w iterations : ℕ) (init : Image) : Image :=
  fun y x =>
    saturateUchar (diffuseIter mask h w (fun a b => ((init a b : ℕ) : ℚ)) iterations y x)

/-- `fastInpaint`: returns the success flag and the output image.  On a fully
masked input both initialisation modes return `false` with `dst` still the
clone of `src` (the early `return false` happens after `dst = src.clone()`). -/
def fastInpaint (src mask : Image) (h w : ℕ) (initMode : InpaintInitMode)
    (iterations : ℕ) : Bool × Image :=
  match initMode with
  | .mean =>
    if unmaskedCount mask h w = 0 then (false, src)
    else (true, inpaintTail mask h w iterations (meanFill src mask h w))
  | .neighborL1 =>
    if unmaskedCount mask h w = 0 then (false, src)
    else (true, inpaintTail mask h w iterations (neighborFill src mask h w))

/-- The two output modes of isolate-bg (`ProgramMode`). -/
inductive ProgramMode
  | normalizedImage
  | background
  deriving DecidableEq

/-- Per-pixel normalisation `min(max(alpha * vI / vB, 0.0), 1.0) * 255.0`
assigned to an `unsigned char` (truncation; the value is already in
`[0, 255]`). -/
def normalizePixel (alpha : ℚ) (vI vB : ℕ) : ℕ :=
  (⌊min (max (alpha * vI / vB) 0) 1 * 255⌋).toNat

/-- The isolate-bg main pipeline from the refined mask onward: inpaint the
background (ignoring the `fastInpaint` success flag, exactly as `main` does),
optionally blur it (the Gaussian blur is an external collaborator, applied
only when the blur size is not 1), then emit either the normalised image or
the background itself. -/
def isolateBgOutput (img mask : Image) (h w : ℕ) (initMode : InpaintInitMode)
    (iterations : ℕ) (blurFn : Image → Image) (backgroundBlur : ℕ) (alpha : ℚ)
    (mode : ProgramMode) : Image :=
  let bg0 := (fastInpaint img mask h w initMode iterations).2
  let bg := if backgroundBlur ≠ 1 then blurFn bg0 else bg0
  match mode with
  | .normalizedImage => fun y x => normalizePixel alpha (img y x) (bg y x)
  | .background => bg

/-- A fully masked (all-255) 1×1 mask. -/
def allMasked : Image := fun _ _ => 255

/-- A 1×1 all-100 source image. -/
def srcC8 : Image := fun _ _ => 100

/-- An everywhere-unmasked mask. -/
def noMask : Image := fun _ _ => 0

/-- A trivial collaborator environment for concrete mask-op instances:
distance transforms that return 0 and an identity border fill. -/
def trivialEnv : MaskEnv := ⟨fun _ _ _ => 0, fun _ _ _ => 0, id⟩

/-- An all-7 mask whose samples are neither 0 nor 255. -/
def mask7 : Image := fun _ _ => 7

lemma rowAccum_eq (f : ℕ → ℕ → ℕ) (y : ℕ) : ∀ x, rowAccum f y x = ∑ j ∈ Finset.range (x + 1), f y j := by
  intro x
  induction x with
  | zero => simp [rowAccum]
  | succ n ih =>
      rw [rowAccum, ih]
      exact (Finset.sum_range_succ (fun j => f y j) (n + 1)).symm

lemma buffer_eq (f : ℕ → ℕ → ℕ) : ∀ y x, buffer f y x = ∑ i ∈ Finset.range (y + 1), ∑ j ∈ Finset.range (x + 1), f i j := by
  intro y
  induction y with
  | zero => intro x; simp [buffer, rowAccum_eq]
  | succ n ih =>
      intro x
      rw [buffer, ih, rowAccum_eq, Nat.add_comm]
      exact (Finset.sum_range_succ (fun i => ∑ j ∈ Finset.range (x + 1), f i j) (n + 1)).symm

/-- Decomposition of an inclusive prefix-sum rectangle into the four parts
determined by the query corner `(y, x)` and the window size. -/
lemma buffer_split (f : ℕ → ℕ → ℕ) (wsize y x : ℕ) :
    buffer f (y + wsize) (x + wsize) =
      buffer f y x +
      (∑ i ∈ Finset.range (y + 1), ∑ j ∈ Finset.range wsize, f i (x + 1 + j)) +
      (∑ i ∈ Finset.range wsize, ∑ j ∈ Finset.range (x + 1), f (y + 1 + i) j) +
      blockSum f wsize y x := by
  have hy : y + wsize + 1 = (y + 1) + wsize := by omega
  have hx : x + wsize + 1 = (x + 1) + wsize := by omega
  rw [buffer_eq, hy, Finset.sum_range_add (fun i => ∑ j ∈ Finset.range (x + wsize + 1), f i j)]
  rw [buffer_eq, blockSum]
  have inner : ∀ g : ℕ → ℕ, (∑ j ∈ Finset.range (x + wsize + 1), g j) =
      (∑ j ∈ Finset.range (x + 1), g j) + ∑ j ∈ Finset.range wsize, g (x + 1 + j) := by
    intro g
    rw [hx, Finset.sum_range_add]
  have h1 : (∑ i ∈ Finset.range (y + 1), ∑ j ∈ Finset.range (x + wsize + 1), f i j) =
      (∑ i ∈ Finset.range (y + 1), ∑ j ∈ Finset.range (x + 1), f i j) +
        ∑ i ∈ Finset.range (y + 1), ∑ j ∈ Finset.range wsize, f i (x + 1 + j) := by
    rw [← Finset.sum_add_distrib]
    exact Finset.sum_congr rfl (fun i _ => inner (f i))
  have h2 : (∑ i ∈ Finset.range wsize, ∑ j ∈ Finset.range (x + wsize + 1), f (y + 1 + i) j) =
      (∑ i ∈ Finset.range wsize, ∑ j ∈ Finset.range (x + 1), f (y + 1 + i) j) +
        ∑ i ∈ Finset.range wsize, ∑ j ∈ Finset.range wsize, f (y + 1 + i) (x + 1 + j) := by
    rw [← Finset.sum_add_distrib]
    exact Finset.sum_congr rfl (fun i _ => inner (f (y + 1 + i)))
  rw [h1, h2]
  ring

lemma buffer_split_right (f : ℕ → ℕ → ℕ) (wsize y x : ℕ) :
    buffer f y (x + wsize) =
      buffer f y x + ∑ i ∈ Finset.range (y + 1), ∑ j ∈ Finset.range wsize, f i (x + 1 + j) := by
  have hx : x + wsize + 1 = (x + 1) + wsize := by omega
  rw [buffer_eq, buffer_eq, ← Finset.sum_add_distrib]
  refine Finset.sum_congr rfl (fun i _ => ?_)
  rw [hx, Finset.sum_range_add]

lemma buffer_split_down (f : ℕ → ℕ → ℕ) (wsize y x : ℕ) :
    buffer f (y + wsize) x =
      buffer f y x + ∑ i ∈ Finset.range wsize, ∑ j ∈ Finset.range (x + 1), f (y + 1 + i) j := by
  have hy : y + wsize + 1 = (y + 1) + wsize := by omega
  rw [buffer_eq, buffer_eq, hy, Finset.sum_range_add (fun i => ∑ j ∈ Finset.range (x + 1), f i j)]

/-- Correctness of the four-corner query: the inclusion-exclusion expression on
the integral buffers (with the source's left-to-right association on an
unsigned type, i.e. truncated subtraction) equals the direct sum over the
`wsize × wsize` sample block. -/
lemma fourCornerTotal_eq_blockSum (f : ℕ → ℕ → ℕ) (wsize y x : ℕ) :
    fourCornerTotal f wsize y x = blockSum f wsize y x := by
  have hs := buffer_split f wsize y x
  have hr := buffer_split_right f wsize y x
  have hd := buffer_split_down f wsize y x
  unfold fourCornerTotal
  omega

lemma mul_invsqWindow (wsize : ℕ) (hws : 1 ≤ wsize) (t : ℝ) :
    t * invsqWindow wsize = t / ((wsize : ℝ) ^ 2) := by
  have hw : (wsize : ℝ) ≠ 0 := by positivity
  rw [invsqWindow]
  field_simp
  ring

lemma sauvolaMean_eq_windowMean (img : Image) (h w wsize y x : ℕ) (hws : 1 ≤ wsize) :
    sauvolaMean img h w wsize y x = windowMean img h w wsize y x := by
  rw [sauvolaMean, windowMean, total1, fourCornerTotal_eq_blockSum,
    mul_invsqWindow wsize hws]

lemma sauvolaStddev_eq_windowStddev (img : Image) (h w wsize y x : ℕ) (hws : 1 ≤ wsize) :
    sauvolaStddev img h w wsize y x = windowStddev img h w wsize y x := by
  rw [sauvolaStddev, windowStddev, windowVariance, total2,
    fourCornerTotal_eq_blockSum, sauvolaMean_eq_windowMean img h w wsize y x hws,
    mul_invsqWindow wsize hws]
  ring_nf

lemma sauvolaThresholdInt_eq (img : Image) (h w wsize : ℕ)
    (kParam rScale tScale tBias : ℝ) (y x : ℕ) (hws : 1 ≤ wsize) :
    sauvolaThresholdInt img h w wsize kParam rScale tScale tBias y x =
      cppTruncToInt (specThreshold img h w wsize kParam rScale tScale tBias y x) := by
  rw [sauvolaThresholdInt, specThreshold, sauvolaMean_eq_windowMean img h w wsize y x hws,
    sauvolaStddev_eq_windowStddev img h w wsize y x hws]

lemma centerPixel_eq (img : Image) (h w wsize y x : ℕ) (hy : y < h) (hx : x < w) :
    centerPixel img h w wsize y x = img y x := by
  rw [centerPixel, padimg]
  have h1 : y + win_n wsize - win_n wsize = y := by omega
  have h2 : x + win_n wsize - win_n wsize = x := by omega
  rw [h1, h2, Nat.min_eq_right (by omega), Nat.min_eq_right (by omega)]

lemma cppTrunc_of_floor (t : ℝ) (z : ℤ) (h0 : 0 ≤ t) (h1 : (z : ℝ) ≤ t) (h2 : t < z + 1) :
    cppTruncToInt t = z := by
  rw [cppTruncToInt, if_pos h0]
  exact Int.floor_eq_iff.mpr ⟨h1, h2⟩

lemma cppTrunc_of_ceil (t : ℝ) (z : ℤ) (h0 : ¬0 ≤ t) (h1 : (z : ℝ) - 1 < t) (h2 : t ≤ z) :
    cppTruncToInt t = z := by
  rw [cppTruncToInt, if_neg h0]
  exact Int.ceil_eq_iff.mpr ⟨h1, h2⟩

/-- Claim C1 (amended form): at every pixel the Binary policy compares the
centre intensity against the Sauvola threshold
`tScale * mean * (1 + K * (stddev / R - 1)) + bias` formed from that pixel's
windowed mean and population standard deviation — but converted to `int`
(truncated toward zero) first; the output is 255 exactly when the centre
intensity strictly exceeds the truncated threshold.  For non-negative
thresholds this coincides with the claim as stated. -/
theorem C1_binary_policy (img : Image) (h w wsize : ℕ) (kParam rScale tScale tBias : ℝ)
    (y x : ℕ) (hy : y < h) (hx : x < w) (hws : 1 ≤ wsize) (hwl : wsize ≤ 16843009)
    (hk : 0 ≤ kParam) (hr : 0 < rScale) (ht : 0 < tScale) :
    sauvolaBinary img h w wsize kParam rScale tScale tBias y x =
      if (img y x : ℤ) >
          cppTruncToInt (specThreshold img h w wsize kParam rScale tScale tBias y x)
      then 255 else 0 := by
  rw [sauvolaBinary, sauvolaThresholdInt_eq img h w wsize kParam rScale tScale tBias y x hws,
    centerPixel_eq img h w wsize y x hy hx]

/-- Concrete instance of `C1_binary_policy` with every hypothesis discharged. -/
theorem C1_binary_policy_witness :
    sauvolaBinary img128 4 4 4 0.4 1 1 0 1 2 =
      if (img128 1 2 : ℤ) > cppTruncToInt (specThreshold img128 4 4 4 0.4 1 1 0 1 2)
      then 255 else 0 :=
  C1_binary_policy img128 4 4 4 0.4 1 1 0 1 2 (by norm_num) (by norm_num) (by norm_num)
    (by norm_num) (by norm_num) (by norm_num) (by norm_num)

lemma ce_b1 : blockSum (padimg ceImg 2 2 2) 2 0 0 = 2 := by decide

lemma ce_b2 : blockSum (sqPix (padimg ceImg 2 2 2)) 2 0 0 = 2 := by decide

lemma ce_mean : windowMean ceImg 2 2 2 0 0 = 1 / 2 := by
  rw [windowMean, ce_b1]
  norm_num

lemma ce_stddev : windowStddev ceImg 2 2 2 0 0 = 1 / 2 := by
  have harg : windowVariance ceImg 2 2 2 0 0 = (1 / 2) ^ 2 := by
    rw [windowVariance, ce_b2, ce_mean]
    norm_num
  rw [windowStddev, harg, Real.sqrt_sq (by norm_num : (0 : ℝ) ≤ 1 / 2)]

lemma ce_threshold : specThreshold ceImg 2 2 2 2 1 1 0 0 0 = -253 / 510 := by
  rw [specThreshold, ce_mean, ce_stddev, rParam, tRealBias]
  norm_num

/-- Claim C1, as stated, is false: at pixel (0,0) of `ceImg` (window 2, K = 2,
R-scale 1, tScale 1, tBias 0 — a valid configuration) the centre intensity 0
strictly exceeds the threshold −253/510, so the claim demands output 255, but
the program truncates the threshold to the `int` 0 and outputs 0. -/
theorem C1_counterexample :
    (centerPixel ceImg 2 2 2 0 0 : ℝ) > specThreshold ceImg 2 2 2 2 1 1 0 0 0 ∧
    sauvolaBinary ceImg 2 2 2 2 1 1 0 0 0 = 0 := by
  have hc : centerPixel ceImg 2 2 2 0 0 = 0 := by decide
  have htr : cppTruncToInt (specThreshold ceImg 2 2 2 2 1 1 0 0 0) = 0 := by
    rw [ce_threshold]
    exact cppTrunc_of_ceil _ _ (by norm_num) (by norm_num) (by norm_num)
  constructor
  · rw [hc, ce_threshold]
    norm_num
  · rw [sauvolaBinary, sauvolaThresholdInt_eq ceImg 2 2 2 2 1 1 0 0 0 (by norm_num), htr, hc]
    norm_num

/-! Uniform-image evaluation helpers. -/

lemma blockSum_const (c wsize y x : ℕ) :
    blockSum (fun _ _ => c) wsize y x = wsize * wsize * c := by
  simp [blockSum, Finset.sum_const, Finset.card_range, mul_assoc]

lemma windowMean_const (c h w wsize y x : ℕ) (hws : 1 ≤ wsize) :
    windowMean (fun _ _ => c) h w wsize y x = c := by
  have hpad : padimg (fun _ _ => c) h w wsize = fun _ _ => c := rfl
  have hw : (wsize : ℝ) ≠ 0 := by positivity
  rw [windowMean, hpad, blockSum_const]
  push_cast
  field_simp
  ring

lemma windowStddev_const (c h w wsize y x : ℕ) (hws : 1 ≤ wsize) :
    windowStddev (fun _ _ => c) h w wsize y x = 0 := by
  have hpad : sqPix (padimg (fun _ _ => c) h w wsize) = fun _ _ => c * c := rfl
  have hw : (wsize : ℝ) ≠ 0 := by positivity
  have hvar : windowVariance (fun _ _ => c) h w wsize y x = 0 := by
    rw [windowVariance, hpad, blockSum_const, windowMean_const c h w wsize y x hws]
    push_cast
    field_simp
    ring
  rw [windowStddev, hvar, Real.sqrt_zero]

lemma specThreshold_const (c h w wsize y x : ℕ) (kParam rScale tScale tBias : ℝ)
    (hws : 1 ≤ wsize) :
    specThreshold (fun _ _ => c) h w wsize kParam rScale tScale tBias y x =
      tScale * c * (1 - kParam) + 255 * tBias := by
  have h255 : (255.0 : ℝ) = 255 := by norm_num
  rw [specThreshold, windowMean_const c h w wsize y x hws,
    windowStddev_const c h w wsize y x hws, tRealBias, zero_div, h255]
  ring

lemma img128_def : img128 = fun _ _ => (128 : ℕ) := rfl

lemma img128_threshold (y x : ℕ) :
    specThreshold img128 4 4 4 0.4 1 1 0 y x = 384 / 5 := by
  rw [img128_def, specThreshold_const 128 4 4 4 y x 0.4 1 1 0 (by norm_num)]
  norm_num

lemma img128_thresholdInt (y x : ℕ) :
    sauvolaThresholdInt img128 4 4 4 0.4 1 1 0 y x = 76 := by
  rw [sauvolaThresholdInt_eq img128 4 4 4 0.4 1 1 0 y x (by norm_num), img128_threshold]
  exact cppTrunc_of_floor _ _ (by norm_num) (by norm_num) (by norm_num)

lemma img128_binary (y x : ℕ) (hy : y < 4) (hx : x < 4) :
    sauvolaBinary img128 4 4 4 0.4 1 1 0 y x = 255 := by
  rw [sauvolaBinary, img128_thresholdInt, centerPixel_eq img128 4 4 4 y x hy hx]
  norm_num [img128]

/-- Claim C2, as stated, is false: on the 4×4 all-128 image with window 4,
K = 0.4, R-scale 1 (tScale 1, tBias 0) the threshold at pixel (0,0) is
76.8 = 128·(1 − 0.4), not 128, and the Binary output there is 255, not 0
(128 > 76). -/
theorem C2_counterexample :
    specThreshold img128 4 4 4 0.4 1 1 0 0 0 = 384 / 5 ∧
    specThreshold img128 4 4 4 0.4 1 1 0 0 0 ≠ 128 ∧
    sauvolaBinary img128 4 4 4 0.4 1 1 0 0 0 = 255 := by
  refine ⟨img128_threshold 0 0, ?_, img128_binary 0 0 (by norm_num) (by norm_num)⟩
  rw [img128_threshold 0 0]
  norm_num

/-- Claim C2 (amended form): on the 4×4 all-128 image with window 4, K = 0.4,
R-scale 1, tScale 1, tBias 0, every pixel's threshold is
128·(1 − K) = 76.8 exactly (stddev = 0 makes the variance term −0.4, which
scales the mean rather than leaving it), the truncated integer threshold is
76, and the Binary output is 255 at every pixel since 128 > 76. -/
theorem C2_uniform128_scenario (y x : ℕ) (hy : y < 4) (hx : x < 4) :
    specThreshold img128 4 4 4 0.4 1 1 0 y x = 384 / 5 ∧
    sauvolaThresholdInt img128 4 4 4 0.4 1 1 0 y x = 76 ∧
    sauvolaBinary img128 4 4 4 0.4 1 1 0 y x = 255 :=
  ⟨img128_threshold y x, img128_thresholdInt y x, img128_binary y x hy hx⟩

/-- Concrete instance of `C2_uniform128_scenario` at pixel (3, 1). -/
theorem C2_uniform128_scenario_witness :
    specThreshold img128 4 4 4 0.4 1 1 0 3 1 = 384 / 5 ∧
    sauvolaThresholdInt img128 4 4 4 0.4 1 1 0 3 1 = 76 ∧
    sauvolaBinary img128 4 4 4 0.4 1 1 0 3 1 = 255 :=
  C2_uniform128_scenario 3 1 (by norm_num) (by norm_num)

/-- Claim C4: the padded buffer extends the image by `⌈wsize/2⌉` replicated
rows/columns on the leading edge and `⌊wsize/2⌋` on the trailing edge (so the
padded dimensions are the image dimensions plus `wsize`), and every pixel's
window query totals exactly `wsize` samples per axis, all of them within the
padded buffer. -/
theorem C4_padding (img : Image) (h w wsize y x : ℕ) (hws : 1 ≤ wsize)
    (hy : y < h) (hx : x < w) :
    win_n wsize = ⌈(wsize : ℚ) / 2⌉₊ ∧
    win_p wsize = ⌊(wsize : ℚ) / 2⌋₊ ∧
    win_n wsize + win_p wsize = wsize ∧
    total1 img h w wsize y x =
      ∑ i ∈ Finset.range wsize, ∑ j ∈ Finset.range wsize,
        padimg img h w wsize (y + 1 + i) (x + 1 + j) ∧
    (∀ i < wsize, y + 1 + i < h + wsize) ∧ (∀ j < wsize, x + 1 + j < w + wsize) := by
  refine ⟨?_, ?_, ?_, ?_, ?_, ?_⟩
  · rcases Nat.even_or_odd wsize with ⟨k, hk⟩ | ⟨k, hk⟩
    · subst hk
      have hq : ((k + k : ℕ) : ℚ) / 2 = (k : ℚ) := by push_cast; ring
      rw [hq, Nat.ceil_natCast, win_n, if_neg (by omega)]
      omega
    · subst hk
      have hceil : ⌈((2 * k + 1 : ℕ) : ℚ) / 2⌉₊ = k + 1 := by
        rw [Nat.ceil_eq_iff (by omega : k + 1 ≠ 0)]
        have hq : ((2 * k + 1 : ℕ) : ℚ) / 2 = (k : ℚ) + 1 / 2 := by push_cast; ring
        rw [hq]
        simp only [Nat.add_sub_cancel]
        constructor <;> push_cast <;> linarith
      rw [hceil, win_n, if_pos (by omega)]
      omega
  · rcases Nat.even_or_odd wsize with ⟨k, hk⟩ | ⟨k, hk⟩
    · subst hk
      have hq : ((k + k : ℕ) : ℚ) / 2 = (k : ℚ) := by push_cast; ring
      rw [hq, Nat.floor_natCast, win_p]
      omega
    · subst hk
      have hfloor : ⌊((2 * k + 1 : ℕ) : ℚ) / 2⌋₊ = k := by
        rw [Nat.floor_eq_iff (by positivity)]
        have hq : ((2 * k + 1 : ℕ) : ℚ) / 2 = (k : ℚ) + 1 / 2 := by push_cast; ring
        rw [hq]
        constructor <;> push_cast <;> linarith
      rw [hfloor, win_p]
      omega
  · rcases Nat.even_or_odd wsize with ⟨k, hk⟩ | ⟨k, hk⟩ <;> subst hk
    · rw [win_n, win_p, if_neg (by omega)]
      omega
    · rw [win_n, win_p, if_pos (by omega)]
      omega
  · rw [total1, fourCornerTotal_eq_blockSum, blockSum]
  · intro i hi; omega
  · intro j hj; omega

/-- Concrete instance of `C4_padding` with an even window (4) on `img128`. -/
theorem C4_padding_witness :
    win_n 4 = ⌈(4 : ℚ) / 2⌉₊ ∧
    win_p 4 = ⌊(4 : ℚ) / 2⌋₊ ∧
    win_n 4 + win_p 4 = 4 ∧
    total1 img128 4 4 4 1 2 =
      ∑ i ∈ Finset.range 4, ∑ j ∈ Finset.range 4, padimg img128 4 4 4 (1 + 1 + i) (2 + 1 + j) ∧
    (∀ i < 4, 1 + 1 + i < 4 + 4) ∧ (∀ j < 4, 2 + 1 + j < 4 + 4) := by
  have := C4_padding img128 4 4 4 1 2 (by norm_num) (by norm_num) (by norm_num)
  simpa using this

lemma padimg_le_255 (img : Image) (h w wsize : ℕ)
    (h255 : ∀ i j, i < h → j < w → img i j ≤ 255) (hh : 0 < h) (hw : 0 < w) :
    ∀ a b, padimg img h w wsize a b ≤ 255 := by
  intro a b
  rw [padimg]
  have h1 : min (h - 1) (a - win_n wsize) ≤ h - 1 := Nat.min_le_left _ _
  have h2 : min (w - 1) (b - win_n wsize) ≤ w - 1 := Nat.min_le_left _ _
  exact h255 _ _ (by omega) (by omega)

lemma blockSum_le_of_le (f : ℕ → ℕ → ℕ) (wsize y x c : ℕ) (hb : ∀ a b, f a b ≤ c) :
    blockSum f wsize y x ≤ wsize * wsize * c := by
  rw [blockSum]
  calc ∑ i ∈ Finset.range wsize, ∑ j ∈ Finset.range wsize, f (y + 1 + i) (x + 1 + j)
      ≤ ∑ _i ∈ Finset.range wsize, ∑ _j ∈ Finset.range wsize, c := by
        refine Finset.sum_le_sum (fun i _ => Finset.sum_le_sum (fun j _ => hb _ _))
    _ = wsize * wsize * c := by
        simp [Finset.sum_const, Finset.card_range, mul_assoc]

lemma blockSum_sq_le (f : ℕ → ℕ → ℕ) (wsize y x : ℕ) (hb : ∀ a b, f a b ≤ 255) :
    blockSum (sqPix f) wsize y x ≤ 255 * blockSum f wsize y x := by
  rw [blockSum, blockSum, Finset.mul_sum]
  refine Finset.sum_le_sum (fun i _ => ?_)
  rw [Finset.mul_sum]
  refine Finset.sum_le_sum (fun j _ => ?_)
  rw [sqPix]
  exact Nat.mul_le_mul_right _ (hb _ _)

lemma windowMean_nonneg (img : Image) (h w wsize y x : ℕ) :
    0 ≤ windowMean img h w wsize y x := by
  rw [windowMean]
  positivity

lemma windowMean_le_255 (img : Image) (h w wsize y x : ℕ) (hws : 1 ≤ wsize)
    (h255 : ∀ i j, i < h → j < w → img i j ≤ 255) (hh : 0 < h) (hw : 0 < w) :
    windowMean img h w wsize y x ≤ 255 := by
  have hb := padimg_le_255 img h w wsize h255 hh hw
  have hs := blockSum_le_of_le (padimg img h w wsize) wsize y x 255 hb
  have hwp : (0 : ℝ) < (wsize : ℝ) ^ 2 := by positivity
  rw [windowMean, div_le_iff hwp]
  calc (blockSum (padimg img h w wsize) wsize y x : ℝ)
      ≤ ((wsize * wsize * 255 : ℕ) : ℝ) := by exact_mod_cast hs
    _ = 255 * (wsize : ℝ) ^ 2 := by push_cast; ring

/-- The windowed population standard deviation of 8-bit samples never exceeds
255/2 = 127.5: the variance is at most `mean * (255 - mean) ≤ 127.5²`. -/
lemma windowStddev_le (img : Image) (h w wsize y x : ℕ) (hws : 1 ≤ wsize)
    (h255 : ∀ i j, i < h → j < w → img i j ≤ 255) (hh : 0 < h) (hw : 0 < w) :
    windowStddev img h w wsize y x ≤ 255 * 0.5 := by
  have hb := padimg_le_255 img h w wsize h255 hh hw
  have hs := blockSum_sq_le (padimg img h w wsize) wsize y x hb
  have hwp : (0 : ℝ) < (wsize : ℝ) ^ 2 := by positivity
  set m := windowMean img h w wsize y x with hm
  have hm0 : 0 ≤ m := windowMean_nonneg img h w wsize y x
  have hm255 : m ≤ 255 := windowMean_le_255 img h w wsize y x hws h255 hh hw
  have hvar : windowVariance img h w wsize y x ≤ 255 * m - m ^ 2 := by
    rw [windowVariance, ← hm]
    have h1 : (blockSum (sqPix (padimg img h w wsize)) wsize y x : ℝ) / ((wsize : ℝ) ^ 2)
        ≤ 255 * m := by
      rw [hm, windowMean, div_le_iff hwp]
      have hcan : 255 * ((blockSum (padimg img h w wsize) wsize y x : ℝ) / (wsize : ℝ) ^ 2) *
          (wsize : ℝ) ^ 2 = 255 * (blockSum (padimg img h w wsize) wsize y x : ℝ) := by
        field_simp
      rw [hcan]
      exact_mod_cast hs
    linarith
  have hvar2 : windowVariance img h w wsize y x ≤ (255 * 0.5) ^ 2 := by
    nlinarith [sq_nonneg (m - 255 * 0.5)]
  calc windowStddev img h w wsize y x
      ≤ Real.sqrt ((255 * 0.5) ^ 2) := Real.sqrt_le_sqrt hvar2
    _ = 255 * 0.5 := Real.sqrt_sq (by norm_num)

/-- Claim C5: with R-scale ≥ 1 (and a positive threshold scale, both enforced
at configuration time) the Variable-policy boundaries satisfy `th0 ≤ th1`,
where `th1 = tScale·mean + bias` and `th0 = tScale·mean·(stddev/R) + bias`. -/
theorem C5_th0_le_th1 (img : Image) (h w wsize y x : ℕ) (rScale tScale tBias : ℝ)
    (h255 : ∀ i j, i < h → j < w → img i j ≤ 255)
    (hy : y < h) (hx : x < w) (hws : 1 ≤ wsize) (hr : 1 ≤ rScale) (ht : 0 < tScale) :
    sauvolaTh1 img h w wsize rScale tScale tBias y x =
      tScale * windowMean img h w wsize y x + tRealBias tBias ∧
    sauvolaTh0 img h w wsize rScale tScale tBias y x =
      tScale * windowMean img h w wsize y x *
        (windowStddev img h w wsize y x / rParam rScale) + tRealBias tBias ∧
    sauvolaTh0 img h w wsize rScale tScale tBias y x ≤
      sauvolaTh1 img h w wsize rScale tScale tBias y x := by
  have hh : 0 < h := by omega
  have hw0 : 0 < w := by omega
  have hmean := sauvolaMean_eq_windowMean img h w wsize y x hws
  have hstd := sauvolaStddev_eq_windowStddev img h w wsize y x hws
  have hm0 : 0 ≤ windowMean img h w wsize y x := windowMean_nonneg img h w wsize y x
  have hsle : windowStddev img h w wsize y x ≤ 255 * 0.5 :=
    windowStddev_le img h w wsize y x hws h255 hh hw0
  have hrp : (0 : ℝ) < rParam rScale := by rw [rParam]; nlinarith
  have hsr : windowStddev img h w wsize y x / rParam rScale ≤ 1 := by
    rw [div_le_one hrp, rParam]
    nlinarith
  refine ⟨?_, ?_, ?_⟩
  · rw [sauvolaTh1, hmean]
  · rw [sauvolaTh0, hmean, hstd]
    ring
  · rw [sauvolaTh0, sauvolaTh1, hmean, hstd]
    have hmul : 0 ≤ tScale * windowMean img h w wsize y x := by positivity
    nlinarith [mul_le_mul_of_nonneg_left hsr hmul]

/-- Concrete instance of `C5_th0_le_th1` on the all-128 image. -/
theorem C5_th0_le_th1_witness :
    sauvolaTh1 img128 4 4 4 1 1 0 2 2 =
      1 * windowMean img128 4 4 4 2 2 + tRealBias 0 ∧
    sauvolaTh0 img128 4 4 4 1 1 0 2 2 =
      1 * windowMean img128 4 4 4 2 2 *
        (windowStddev img128 4 4 4 2 2 / rParam 1) + tRealBias 0 ∧
    sauvolaTh0 img128 4 4 4 1 1 0 2 2 ≤ sauvolaTh1 img128 4 4 4 1 1 0 2 2 :=
  C5_th0_le_th1 img128 4 4 4 2 2 1 1 0 (fun i j _ _ => by norm_num [img128])
    (by norm_num) (by norm_num) (by norm_num) (by norm_num) (by norm_num)

/-- Claim C6 (amended form): the ThresholdMap policy emits the threshold
converted to `int` (truncation toward zero) and then reduced modulo 256 by the
`int`-to-`unsigned char` conversion — a wrap-around, not a clamp.  Whenever the
threshold lies in `[0, 256)` the emitted sample equals the truncated threshold
itself. -/
theorem C6_threshold_map (img : Image) (h w wsize : ℕ) (kParam rScale tScale tBias : ℝ)
    (y x : ℕ) (hy : y < h) (hx : x < w) (hws : 1 ≤ wsize) :
    sauvolaThresholdMap img h w wsize kParam rScale tScale tBias y x =
      (cppTruncToInt (specThreshold img h w wsize kParam rScale tScale tBias y x) % 256).toNat ∧
    (0 ≤ specThreshold img h w wsize kParam rScale tScale tBias y x →
      specThreshold img h w wsize kParam rScale tScale tBias y x < 256 →
      (sauvolaThresholdMap img h w wsize kParam rScale tScale tBias y x : ℤ) =
        cppTruncToInt (specThreshold img h w wsize kParam rScale tScale tBias y x)) := by
  constructor
  · rw [sauvolaThresholdMap,
      sauvolaThresholdInt_eq img h w wsize kParam rScale tScale tBias y x hws]
  · intro h0 h1
    rw [sauvolaThresholdMap,
      sauvolaThresholdInt_eq img h w wsize kParam rScale tScale tBias y x hws,
      cppTruncToInt, if_pos h0]
    have hge : (0 : ℤ) ≤ ⌊specThreshold img h w wsize kParam rScale tScale tBias y x⌋ :=
      Int.floor_nonneg.mpr h0
    have hlt : ⌊specThreshold img h w wsize kParam rScale tScale tBias y x⌋ < 256 :=
      Int.floor_lt.mpr (by exact_mod_cast h1)
    rw [Int.emod_eq_of_lt hge hlt, Int.toNat_of_nonneg hge]

/-- Concrete instance of `C6_threshold_map` on the all-128 image. -/
theorem C6_threshold_map_witness :
    sauvolaThresholdMap img128 4 4 4 0.4 1 1 0 1 1 =
      (cppTruncToInt (specThreshold img128 4 4 4 0.4 1 1 0 1 1) % 256).toNat ∧
    (0 ≤ specThreshold img128 4 4 4 0.4 1 1 0 1 1 →
      specThreshold img128 4 4 4 0.4 1 1 0 1 1 < 256 →
      (sauvolaThresholdMap img128 4 4 4 0.4 1 1 0 1 1 : ℤ) =
        cppTruncToInt (specThreshold img128 4 4 4 0.4 1 1 0 1 1)) :=
  C6_threshold_map img128 4 4 4 0.4 1 1 0 1 1 (by norm_num) (by norm_num) (by norm_num)

lemma img250_threshold : specThreshold img250 1 1 1 0 1 1 (50 / 255) 0 0 = 300 := by
  rw [show img250 = fun _ _ => (250 : ℕ) from rfl,
    specThreshold_const 250 1 1 1 0 0 0 1 1 (50 / 255) (by norm_num)]
  norm_num

/-- Claim C6, as stated, is false: on the 1×1 all-250 image with window 1,
K = 0, tScale 1, tBias 50/255 the computed threshold is 300; the claim demands
the clamped value 255, but the program emits 300 mod 256 = 44. -/
theorem C6_counterexample :
    specThreshold img250 1 1 1 0 1 1 (50 / 255) 0 0 = 300 ∧
    sauvolaThresholdMap img250 1 1 1 0 1 1 (50 / 255) 0 0 = 44 ∧
    sauvolaThresholdMap img250 1 1 1 0 1 1 (50 / 255) 0 0 ≠ 255 := by
  have htr : cppTruncToInt (specThreshold img250 1 1 1 0 1 1 (50 / 255) 0 0) = 300 := by
    rw [img250_threshold]
    exact cppTrunc_of_floor _ _ (by norm_num) (by norm_num) (by norm_num)
  have hmap : sauvolaThresholdMap img250 1 1 1 0 1 1 (50 / 255) 0 0 = 44 := by
    rw [sauvolaThresholdMap,
      sauvolaThresholdInt_eq img250 1 1 1 0 1 1 (50 / 255) 0 0 (by norm_num), htr]
    decide
  exact ⟨img250_threshold, hmap, by rw [hmap]; norm_num⟩

/-- Claim C3 context: at the failing input (all-5 image, window 7) the exact
value of the radicand `total2 * invsqWindow - mean * mean` is 0, so the
negativity observed under IEEE doubles (≈ −3.55·10⁻¹⁵) is pure floating-point
cancellation; the source contains no clamp between this expression and
`sqrt`, so the clamped behaviour the claim describes is absent. -/
theorem C3_radicand_exact_zero :
    (total2 img5 7 7 7 0 0 : ℝ) * invsqWindow 7 -
      sauvolaMean img5 7 7 7 0 0 * sauvolaMean img5 7 7 7 0 0 = 0 ∧
    sauvolaStddev img5 7 7 7 0 0 = 0 := by
  have h1 : total1 img5 7 7 7 0 0 = 245 := by decide
  have h2 : total2 img5 7 7 7 0 0 = 1225 := by decide
  have hm : sauvolaMean img5 7 7 7 0 0 = 5 := by
    rw [sauvolaMean, h1, invsqWindow]
    norm_num
  have hr : (total2 img5 7 7 7 0 0 : ℝ) * invsqWindow 7 -
      sauvolaMean img5 7 7 7 0 0 * sauvolaMean img5 7 7 7 0 0 = 0 := by
    rw [h2, hm, invsqWindow]
    norm_num
  exact ⟨hr, by rw [sauvolaStddev, hr, Real.sqrt_zero]⟩

/-- Claim C7: a non-negative outset is dispatched as exactly
`negate; inset; negate` (so running it on any mask is negate–inset–negate),
and a negative distance to inset/outset is sign-flipped into the
complementary command list before any mask processing. -/
theorem C7_outset_dispatch (env : MaskEnv) (m : Image) (d : ℚ) :
    (0 ≤ d →
      dispatchInsetOutset .optO d =
        ⟨.neg, 0⟩ :: (dispatchInsetOutset .optI d ++ [⟨.neg, 0⟩]) ∧
      dispatchInsetOutset .optOL1 d =
        ⟨.neg, 0⟩ :: (dispatchInsetOutset .optIL1 d ++ [⟨.neg, 0⟩]) ∧
      runCommands env (dispatchInsetOutset .optO d) m =
        maskNeg (runCommands env (dispatchInsetOutset .optI d) (maskNeg m)) ∧
      runCommands env (dispatchInsetOutset .optOL1 d) m =
        maskNeg (runCommands env (dispatchInsetOutset .optIL1 d) (maskNeg m))) ∧
    (d < 0 →
      dispatchInsetOutset .optI d = dispatchInsetOutset .optO (-d) ∧
      dispatchInsetOutset .optO d = dispatchInsetOutset .optI (-d) ∧
      dispatchInsetOutset .optIL1 d = dispatchInsetOutset .optOL1 (-d) ∧
      dispatchInsetOutset .optOL1 d = dispatchInsetOutset .optIL1 (-d)) := by
  constructor
  · intro hd
    have hneg : ¬d < 0 := not_lt.mpr hd
    refine ⟨?_, ?_, ?_, ?_⟩ <;>
      simp [dispatchInsetOutset, hneg, runCommands, runCommand, flipOpt]
  · intro hd
    have hpos : ¬(-d) < 0 := by linarith
    refine ⟨?_, ?_, ?_, ?_⟩ <;> simp [dispatchInsetOutset, hd, hpos, flipOpt]

/-- Concrete instances of `C7_outset_dispatch` at distances 1 and −1. -/
theorem C7_outset_dispatch_witness :
    (dispatchInsetOutset .optO 1 =
        ⟨.neg, 0⟩ :: (dispatchInsetOutset .optI 1 ++ [⟨.neg, 0⟩]) ∧
      dispatchInsetOutset .optOL1 1 =
        ⟨.neg, 0⟩ :: (dispatchInsetOutset .optIL1 1 ++ [⟨.neg, 0⟩]) ∧
      runCommands trivialEnv (dispatchInsetOutset .optO 1) mask7 =
        maskNeg (runCommands trivialEnv (dispatchInsetOutset .optI 1) (maskNeg mask7)) ∧
      runCommands trivialEnv (dispatchInsetOutset .optOL1 1) mask7 =
        maskNeg (runCommands trivialEnv (dispatchInsetOutset .optIL1 1) (maskNeg mask7))) ∧
    (dispatchInsetOutset .optI (-1) = dispatchInsetOutset .optO 1 ∧
      dispatchInsetOutset .optO (-1) = dispatchInsetOutset .optI 1 ∧
      dispatchInsetOutset .optIL1 (-1) = dispatchInsetOutset .optOL1 1 ∧
      dispatchInsetOutset .optOL1 (-1) = dispatchInsetOutset .optIL1 1) := by
  constructor
  · exact (C7_outset_dispatch trivialEnv mask7 1).1 (by norm_num)
  · have := (C7_outset_dispatch trivialEnv mask7 (-1)).2 (by norm_num)
    simpa using this

/-- Claim C10: an inset command (either norm) writes only the values 0 and 255,
whatever 8-bit values the incoming mask holds and whatever the distance
transform returns — inset re-binarizes any mask it is applied to. -/
theorem C10_inset_rebinarizes (env : MaskEnv) (m : Image) (op : MaskOp) (d : ℚ)
    (y x : ℕ) (hop : op = .insetL2 ∨ op = .insetL1) (hd : 0 ≤ d) :
    runCommands env [⟨op, d⟩] m y x = 0 ∨ runCommands env [⟨op, d⟩] m y x = 255 := by
  rcases hop with rfl | rfl <;>
  · simp only [runCommands, List.foldl, runCommand, insetThreshold]
    split
    · exact Or.inl rfl
    · exact Or.inr rfl

/-- Concrete instance of `C10_inset_rebinarizes` on a mask holding the
non-binary sample 7. -/
theorem C10_inset_rebinarizes_witness :
    runCommands trivialEnv [⟨.insetL1, 2⟩] mask7 0 0 = 0 ∨
    runCommands trivialEnv [⟨.insetL1, 2⟩] mask7 0 0 = 255 :=
  C10_inset_rebinarizes trivialEnv mask7 .insetL1 2 0 0 (Or.inr rfl) (by norm_num)

lemma cvRound_natCast (n : ℕ) : cvRound (n : ℚ) = (n : ℤ) := by
  have hz : ((n : ℚ) - ⌊(n : ℚ)⌋) = 0 := by
    rw [Int.floor_natCast]
    push_cast
    ring
  rw [cvRound, hz, if_pos (by norm_num), Int.floor_natCast]

lemma saturateUchar_natCast (n : ℕ) (hn : n ≤ 255) : saturateUchar (n : ℚ) = n := by
  rw [saturateUchar, cvRound_natCast]
  omega

/-- Claim C9: for every image, mask, initialisation mode and iteration count,
a pixel at which the mask is zero keeps exactly its source value in the
inpainter's output — neither initialisation fill overwrites it, no diffusion
iteration overwrites it, and the float round trip returns the original 8-bit
value. -/
theorem C9_frame (src mask : Image) (h w : ℕ) (mode : InpaintInitMode) (n y x : ℕ)
    (hy : y < h) (hx : x < w) (hm : mask y x = 0) (hv : src y x ≤ 255) :
    (fastInpaint src mask h w mode n).2 y x = src y x := by
  have htail : ∀ init : Image, init y x = src y x →
      inpaintTail mask h w n init y x = src y x := by
    intro init hIx
    have hdiff : ∀ k,
        diffuseIter mask h w (fun a b => ((init a b : ℕ) : ℚ)) k y x =
          ((src y x : ℕ) : ℚ) := by
      intro k
      induction k with
      | zero => simp [diffuseIter, hIx]
      | succ k ih =>
          have hstep : diffuseStep mask h w
              (diffuseIter mask h w (fun a b => ((init a b : ℕ) : ℚ)) k) y x =
              diffuseIter mask h w (fun a b => ((init a b : ℕ) : ℚ)) k y x := by
            simp [diffuseStep, hm]
          rw [diffuseIter, hstep, ih]
    rw [inpaintTail, hdiff n, saturateUchar_natCast _ hv]
  cases mode with
  | mean =>
      by_cases hc : unmaskedCount mask h w = 0
      · simp [fastInpaint, hc]
      · simp only [fastInpaint, if_neg hc]
        exact htail _ (by simp [meanFill, hm])
  | neighborL1 =>
      by_cases hc : unmaskedCount mask h w = 0
      · simp [fastInpaint, hc]
      · simp only [fastInpaint, if_neg hc]
        exact htail _ (by simp [neighborFill, hm])

/-- Concrete instance of `C9_frame`: an unmasked pixel survives three
diffusion iterations unchanged. -/
theorem C9_frame_witness :
    (fastInpaint srcC8 noMask 1 1 .mean 3).2 0 0 = srcC8 0 0 :=
  C9_frame srcC8 noMask 1 1 .mean 3 0 0 (by norm_num) (by norm_num) rfl
    (by norm_num [srcC8])

/-- Claim C8 context: on a fully masked 1×1 input both initialisation modes of
`fastInpaint` report failure (return `false`), yet the pipeline continues —
`main` never reads the flag — and produces a normalised output image (pixel
value 229 = ⌊0.9·255⌋, the source divided by its own clone), instead of
failing the run. -/
theorem C8_degenerate_not_fatal :
    (fastInpaint srcC8 allMasked 1 1 .mean 16).1 = false ∧
    (fastInpaint srcC8 allMasked 1 1 .neighborL1 16).1 = false ∧
    isolateBgOutput srcC8 allMasked 1 1 .neighborL1 16 id 1 (9 / 10)
      .normalizedImage 0 0 = 229 := by
  have hcount : unmaskedCount allMasked 1 1 = 0 := by decide
  have hnp : normalizePixel (9 / 10) 100 100 = 229 := by
    rw [normalizePixel]
    have h1 : (9 / 10 : ℚ) * (100 : ℕ) / (100 : ℕ) = 9 / 10 := by push_cast; norm_num
    rw [h1, max_eq_left (by norm_num : (0 : ℚ) ≤ 9 / 10),
      min_eq_left (by norm_num : (9 / 10 : ℚ) ≤ 1)]
    have h3 : (9 / 10 : ℚ) * 255 = 459 / 2 := by norm_num
    rw [h3]
    have h4 : ⌊(459 / 2 : ℚ)⌋ = 229 := by
      rw [Int.floor_eq_iff]
      norm_num
    rw [h4]
    rfl
  refine ⟨?_, ?_, ?_⟩
  · simp [fastInpaint, hcount]
  · simp [fastInpaint, hcount]
  · simp [isolateBgOutput, fastInpaint, hcount, srcC8, hnp]

end ImgprocDH
